import Mathlib

/-!
# Verification of the Raft simulation engine

Shallow embedding of the consensus simulation engine:
the protocol handlers of `src/utils/raftLogic.ts` and the packet-building /
leader-bookkeeping / control-operation fragments of the tick scheduler
(`src/unnamed/part_001`).

Conventions of the embedding:
* JavaScript numbers used as log indices, terms and node ids are modelled as `Int`
  (the code uses the sentinel value `-1` for "empty log" throughout).
* Packet transit rates are modelled as `ℚ` (the base rate is the literal `1.5`).
* `Record<number, number>` objects (`nextIndex`, `matchIndex`) are modelled as
  association lists: an existing key is updated in place, a new key is
  appended.  (JS enumerates integer-like keys in ascending key order; every
  use of `Object.values` here feeds a sort, so only the value multiset
  matters and the list order is irrelevant.)
* A handler whose JS execution would throw (reading `.term` of `undefined`)
  is modelled as returning `none`.
* `crypto.randomUUID()` packet ids are diagnostic-only (never read by the
  protocol logic) and are not modelled.
* `Math.random()` draws (`getRandomTimeout`) are passed in as explicit arguments.
-/

/-- The `NodeState` enum of `src/types.ts`. -/
inductive NodeState where
  | FOLLOWER
  | CANDIDATE
  | LEADER
  | CRASHED
deriving DecidableEq, Repr

/-- The `PacketType` enum of `src/types.ts`. -/
inductive PacketType where
  | REQUEST_VOTE
  | VOTE_RESPONSE
  | APPEND_ENTRIES
  | APPEND_RESPONSE
deriving DecidableEq, Repr

/-- Entry type `LogEntry` of `src/types.ts`. -/
structure LogEntry where
  term : Int
  command : String
deriving DecidableEq, Repr

/-- Node type `RaftNode` of `src/types.ts`.  The purely visual `x`/`y` coordinates are
omitted: no protocol logic reads them. -/
structure RaftNode where
  id : Int
  state : NodeState
  currentTerm : Int
  votedFor : Option Int
  log : List LogEntry
  commitIndex : Int
  electionTimeout : Int
  currentTimeoutDuration : Int
  nextIndex : List (Int × Int)
  matchIndex : List (Int × Int)
  heartbeatTimer : Int
deriving DecidableEq, Repr

/-- The four wire payload shapes, one constructor per `PacketType`
(`payload: any` in `src/types.ts`, with the shapes fixed by the handlers). -/
inductive Payload where
  | requestVote (term candidateId lastLogIndex lastLogTerm : Int)
  | voteResponse (term : Int) (voteGranted : Bool)
  | appendEntries (term leaderId prevLogIndex prevLogTerm : Int)
      (entries : List LogEntry) (leaderCommit : Int)
  | appendResponse (term : Int) (success : Bool) (matchIndex : Int)
deriving DecidableEq, Repr

/-- Packet type `Packet` of `src/types.ts` (the uuid `id` field is diagnostic-only and
not modelled; `type` is determined by the payload constructor). -/
structure Packet where
  fromId : Int
  toId : Int
  payload : Payload
  progress : ℚ
  speed : ℚ
deriving DecidableEq, Repr

/-- Constant `PACKET_SPEED = 1.5` of `src/utils/raftLogic.ts`. -/
def PACKET_SPEED : ℚ := 3 / 2

/-- Constant `HEARTBEAT_INTERVAL = 50` of `src/utils/raftLogic.ts`. -/
def HEARTBEAT_INTERVAL : Int := 50

/-! ## Association-list operations mirroring JS object access -/

/-- Read `obj[k]` on a JS numeric record: `none` models `undefined`. -/
def lookupA (l : List (Int × Int)) (k : Int) : Option Int :=
  (l.find? (fun p => p.1 == k)).map (fun p => p.2)

/-- Write `obj[k] = v` on a JS numeric record: update in place, or append a new key. -/
def setA : List (Int × Int) → Int → Int → List (Int × Int)
  | [], k, v => [(k, v)]
  | (k', v') :: rest, k, v =>
      if k' = k then (k, v) :: rest else (k', v') :: setA rest k v

/-- JS truthiness coercion `x || 1` applied to a possibly-absent numeric
record entry: `undefined` and `0` are falsy and yield `1`. -/
def jsOrOne : Option Int → Int
  | none => 1
  | some v => if v = 0 then 1 else v

/-! ## Log index helpers -/

/-- Term of `log[i]` for an `Int` index, `none` when the access yields
`undefined` (negative or out-of-range index). -/
def termAt (log : List LogEntry) (i : Int) : Option Int :=
  if 0 ≤ i then (log[i.toNat]?).map (fun e => e.term) else none

/-- Value `log.length - 1` (the code's `myLastLogIndex`). -/
def lastLogIndexOf (log : List LogEntry) : Int := (log.length : Int) - 1

/-- Value `myLastLogIndex >= 0 ? log[myLastLogIndex].term : -1`. -/
def lastLogTermOf (log : List LogEntry) : Int :=
  match log.getLast? with
  | some e => e.term
  | none => -1

/-- Operation `Array.prototype.slice(i)` for an `Int` start index (a negative start
counts from the end, clamped at 0). -/
def jsSlice (l : List LogEntry) (i : Int) : List LogEntry :=
  if 0 ≤ i then l.drop i.toNat else l.drop (max ((l.length : Int) + i) 0).toNat

/-! ## `processRequestVote` (`src/utils/raftLogic.ts`, lines 36-77) -/

/-- Payload of a `REQUEST_VOTE` packet. -/
structure RVPayload where
  term : Int
  candidateId : Int
  lastLogIndex : Int
  lastLogTerm : Int
deriving DecidableEq, Repr

/-- The "term T > currentTerm: adopt term, convert to follower" rule opening
`processRequestVote`. -/
def rvAdopt (node : RaftNode) (term : Int) : RaftNode :=
  if term > node.currentTerm then
    { node with currentTerm := term, state := .FOLLOWER, votedFor := none }
  else node

/-- Predicate `logIsUpToDate` of `processRequestVote`. -/
def logUpToDate (log : List LogEntry) (lastLogIndex lastLogTerm : Int) : Bool :=
  decide (lastLogTerm > lastLogTermOf log ∨
    (lastLogTerm = lastLogTermOf log ∧ lastLogIndex ≥ lastLogIndexOf log))

/-- Handler `processRequestVote`: returns `{ updatedNode, replyPacket }` (the reply is
always produced). -/
def processRequestVote (node : RaftNode) (pl : RVPayload) : RaftNode × Packet :=
  let n1 := rvAdopt node pl.term
  let voteGranted :=
    decide (pl.term ≥ n1.currentTerm) &&
    (n1.votedFor == none || n1.votedFor == some pl.candidateId) &&
    logUpToDate n1.log pl.lastLogIndex pl.lastLogTerm
  let n2 :=
    if voteGranted then
      { n1 with votedFor := some pl.candidateId,
                electionTimeout := n1.currentTimeoutDuration }
    else n1
  (n2,
   { fromId := node.id
     toId := pl.candidateId
     payload := .voteResponse n2.currentTerm voteGranted
     progress := 0
     speed := PACKET_SPEED })

/-! ## `processAppendEntries` (`src/utils/raftLogic.ts`, lines 114-175) -/

/-- Payload of an `APPEND_ENTRIES` packet. -/
structure AEPayload where
  term : Int
  leaderId : Int
  prevLogIndex : Int
  prevLogTerm : Int
  entries : List LogEntry
  leaderCommit : Int
deriving DecidableEq, Repr

/-- The entry-insertion `while` loop of `processAppendEntries`:
push when past the end, skip on an equal term, truncate-and-push on a
conflicting term. -/
def appendLoop : List LogEntry → Nat → List LogEntry → List LogEntry
  | log, _, [] => log
  | log, i, e :: rest =>
      match log[i]? with
      | none => appendLoop (log ++ [e]) (i + 1) rest
      | some cur =>
          if cur.term = e.term then appendLoop log (i + 1) rest
          else appendLoop (log.take i ++ [e]) (i + 1) rest

/-- The `AppendResponse` reply packet built at the end of
`processAppendEntries` (`matchIndex` is the receiver's last log index after
mutation). -/
def aeReplyPacket (origId leaderId : Int) (upd : RaftNode) (succ : Bool) : Packet :=
  { fromId := origId
    toId := leaderId
    payload := .appendResponse upd.currentTerm succ ((upd.log.length : Int) - 1)
    progress := 0
    speed := PACKET_SPEED }

/-- The opening "term >= currentTerm: adopt term, become Follower, clear
votedFor, reset election timer" block of `processAppendEntries`. -/
def aeAdopt (node : RaftNode) (pl : AEPayload) : RaftNode :=
  if pl.term ≥ node.currentTerm then
    { node with currentTerm := pl.term, state := .FOLLOWER, votedFor := none,
                electionTimeout := node.currentTimeoutDuration }
  else node

/-- The success path of `processAppendEntries` on the adopted node `n1`:
insert the entries, then raise the commit index to
`min(leaderCommit, log.length - 1)` when `leaderCommit` exceeds it. -/
def aeSuccess (origId : Int) (pl : AEPayload) (n1 : RaftNode) :
    RaftNode × Packet :=
  let log2 := appendLoop n1.log (pl.prevLogIndex + 1).toNat pl.entries
  let n3 :=
    if pl.leaderCommit > n1.commitIndex then
      { n1 with log := log2,
                commitIndex := min pl.leaderCommit ((log2.length : Int) - 1) }
    else { n1 with log := log2 }
  (n3, aeReplyPacket origId pl.leaderId n3 true)

/-- The code's `logOk` predicate: `prevLogIndex === -1`, or the (adopted)
receiver's log has an entry at `prevLogIndex` whose term is `prevLogTerm`. -/
def aeLogOk (n1 : RaftNode) (pl : AEPayload) : Prop :=
  pl.prevLogIndex = -1 ∨
    (0 ≤ pl.prevLogIndex ∧ termAt n1.log pl.prevLogIndex = some pl.prevLogTerm)

instance (n1 : RaftNode) (pl : AEPayload) : Decidable (aeLogOk n1 pl) := by
  unfold aeLogOk; infer_instance

/-- Handler `processAppendEntries`.  Returns `none` exactly when the JS code would
throw: the log-consistency check evaluates `log[prevLogIndex].term` with
`prevLogIndex ≤ -2` (then `log.length > prevLogIndex` holds and the indexing
yields `undefined`). -/
def processAppendEntries (node : RaftNode) (pl : AEPayload) :
    Option (RaftNode × Packet) :=
  if pl.term < (aeAdopt node pl).currentTerm then
    some (aeAdopt node pl,
      aeReplyPacket node.id pl.leaderId (aeAdopt node pl) false)
  else if aeLogOk (aeAdopt node pl) pl then
    some (aeSuccess node.id pl (aeAdopt node pl))
  else if pl.prevLogIndex ≤ -2 then
    none  -- JS: log.length > prevLogIndex, then (undefined).term throws
  else
    some (aeAdopt node pl,
      aeReplyPacket node.id pl.leaderId (aeAdopt node pl) false)

/-! ## Scheduler-side packet construction (`src/unnamed/part_001`) -/

/-- Helper `broadcast` (lines 47-60): one packet per live peer, at the base
rate scaled by the global playback multiplier. -/
def broadcast (sender : RaftNode) (pl : Payload) (nodesList : List RaftNode)
    (playbackSpeed : ℚ) : List Packet :=
  (nodesList.filter
      (fun n => !(n.id == sender.id) && !(n.state == NodeState.CRASHED))).map
    (fun target =>
      { fromId := sender.id
        toId := target.id
        payload := pl
        progress := 0
        speed := PACKET_SPEED * playbackSpeed })

/-- The per-peer `AppendEntries` heartbeat packet built when a leader's
heartbeat timer fires (lines 196-221 of the tick loop).
`prevLogIndex = (nextIndex[peer.id] || 1) - 1` uses JS truthiness, so a
`nextIndex` of `0` (or an absent entry) behaves like `1`. -/
def heartbeatPacket (leader : RaftNode) (peerId : Int) (playbackSpeed : ℚ) : Packet :=
  let prevLogIndex := jsOrOne (lookupA leader.nextIndex peerId) - 1
  let prevLogTerm :=
    match termAt leader.log prevLogIndex with
    | some t => t
    | none => -1
  let entries := jsSlice leader.log (prevLogIndex + 1)
  { fromId := leader.id
    toId := peerId
    payload := .appendEntries leader.currentTerm leader.id prevLogIndex
      prevLogTerm entries leader.commitIndex
    progress := 0
    speed := PACKET_SPEED * playbackSpeed }

/-- The heartbeat broadcast loop (lines 196-222): every node other than the
leader itself that is not crashed receives its individually computed packet. -/
def heartbeatBroadcast (leader : RaftNode) (nodes : List RaftNode)
    (playbackSpeed : ℚ) : List Packet :=
  (nodes.filter
      (fun p => !(p.id == leader.id) && !(p.state == NodeState.CRASHED))).map
    (fun p => heartbeatPacket leader p.id playbackSpeed)

/-! ## Leader-side `APPEND_RESPONSE` bookkeeping (lines 126-153) -/

/-- Payload of an `APPEND_RESPONSE` packet. -/
structure ARPayload where
  term : Int
  success : Bool
  matchIndex : Int
deriving DecidableEq, Repr

/-- Descending insertion of an element into a descending-sorted list. -/
def insertDesc (x : Int) : List Int → List Int
  | [] => [x]
  | y :: ys => if x ≥ y then x :: y :: ys else y :: insertDesc x ys

/-- Sort `matchIndexes.sort((a, b) => b - a)`: the descending numeric sort.
(For `Int` elements the descending-sorted rearrangement of a list is unique,
so insertion sort coincides with the source's `Array.prototype.sort`.) -/
def sortDesc : List Int → List Int
  | [] => []
  | x :: xs => insertDesc x (sortDesc xs)

/-- The candidate commit index computed by the leader:
`[log.length - 1, ...Object.values(matchIndex)]` sorted descending, taken at
index `Math.floor(NODE_COUNT / 2) = 2` (`NODE_COUNT = 5`); `none` models the
`undefined` read when the array has fewer than three elements. -/
def codeCandidateCommit (node : RaftNode) : Option Int :=
  (sortDesc (((node.log.length : Int) - 1) :: node.matchIndex.map (fun p => p.2)))[2]?

/-- The JS guard `log[i] && log[i].term === t`. -/
def entryTermEq (log : List LogEntry) (i : Int) (t : Int) : Bool :=
  match termAt log i with
  | some u => u == t
  | none => false

/-- The `APPEND_RESPONSE` dispatch branch of the tick loop (lines 126-153):
higher-term step-down, then (for a leader on a same-term response) the
`matchIndex`/`nextIndex` update, commit-index recomputation on success, and
the floored `nextIndex` decrement on failure. -/
def processAppendResponse (node : RaftNode) (senderId : Int) (pl : ARPayload) :
    RaftNode :=
  if pl.term > node.currentTerm then
    { node with state := .FOLLOWER, currentTerm := pl.term, votedFor := none }
  else if node.state = .LEADER ∧ pl.term = node.currentTerm then
    if pl.success then
      let n1 := { node with
        matchIndex := setA node.matchIndex senderId pl.matchIndex,
        nextIndex := setA node.nextIndex senderId (pl.matchIndex + 1) }
      match codeCandidateCommit n1 with
      | some majorityN =>
          if majorityN > n1.commitIndex ∧
             entryTermEq n1.log majorityN n1.currentTerm = true then
            { n1 with commitIndex := majorityN }
          else n1
      | none => n1
    else
      let dec := max 0 (jsOrOne (lookupA node.nextIndex senderId) - 1)
      { node with nextIndex := setA node.nextIndex senderId dec }
  else node

/-! ## Control operation: crash toggle (`toggleNodeState`, lines 248-261) -/

/-- The per-node effect of the crash toggle: reviving marks the node Follower
and assigns the fresh random election timeout `draw`; crashing only changes
the role. -/
def toggleOne (n : RaftNode) (draw : Int) : RaftNode :=
  if n.state = .CRASHED then
    { n with state := .FOLLOWER, electionTimeout := draw }
  else
    { n with state := .CRASHED }

/-- Control operation `toggleNodeState(id)`: mutate the first node with the given id (JS
`Array.prototype.find`), leaving everything else untouched; a no-op when the
id is absent. -/
def toggleNodeState : List RaftNode → Int → Int → List RaftNode
  | [], _, _ => []
  | n :: rest, i, draw =>
      if n.id = i then toggleOne n draw :: rest
      else n :: toggleNodeState rest i draw

/-! ## Spec-side definitions used to compare code against claim wording -/

/-- Written from the claim wording of C4 (spec steps 4 of the AppendEntries
handler): at each position, append when absent, skip when the term matches,
and on a conflicting term truncate the log from that position onward and
append the new entry together with all subsequent supplied entries. -/
def specMerge : List LogEntry → Nat → List LogEntry → List LogEntry
  | log, _, [] => log
  | log, pos, e :: rest =>
      match log[pos]? with
      | none => specMerge (log ++ [e]) (pos + 1) rest
      | some cur =>
          if cur.term = e.term then specMerge log (pos + 1) rest
          else log.take pos ++ e :: rest

/-- Written from the claim wording of C5: the values `matchIndex[p]` for every
peer `p` of the node, i.e. excluding the node's own entry. -/
def specPeerMatchValues (node : RaftNode) : List Int :=
  (node.matchIndex.filter (fun p => !(p.1 == node.id))).map (fun p => p.2)

/-- Written from the claim wording of C5: the value at 0-indexed rank
`Math.floor(5 / 2) = 2` of the descending sort of the leader's own last log
index together with the peers' match indexes. -/
def specCandidateCommit (node : RaftNode) : Option Int :=
  (sortDesc (((node.log.length : Int) - 1) :: specPeerMatchValues node))[2]?

/-! ## Sample concrete states used by counterexamples and witnesses -/

/-- A freshly initialized follower (as produced by `createNode`, with concrete
timeout draws). -/
def sampleFollower : RaftNode :=
  { id := 1, state := .FOLLOWER, currentTerm := 0, votedFor := none,
    log := [], commitIndex := -1, electionTimeout := 150,
    currentTimeoutDuration := 150, nextIndex := [], matchIndex := [],
    heartbeatTimer := 0 }

/-- A leader of term 1 with one entry whose `nextIndex` for peer 1 has been
decremented to `0` by failed `AppendResponse`s. -/
def c2Leader : RaftNode :=
  { id := 0, state := .LEADER, currentTerm := 1, votedFor := some 0,
    log := [{ term := 1, command := "a" }], commitIndex := -1,
    electionTimeout := 0, currentTimeoutDuration := 200,
    nextIndex := [(0, 1), (1, 0), (2, 1), (3, 1), (4, 1)],
    matchIndex := [(0, 0), (1, 0), (2, 0), (3, 0), (4, 0)],
    heartbeatTimer := 0 }

/-! ## C7: stale AppendEntries -/

/-- C7: for every node whose `currentTerm` is strictly greater than the term of
an incoming AppendEntries payload, `processAppendEntries` replies
`success = false` and performs no mutation at all: the updated node is the
receiving node itself (in particular its log is untouched). -/
theorem c7_stale_append_entries (node : RaftNode) (pl : AEPayload)
    (h : node.currentTerm > pl.term) :
    processAppendEntries node pl =
      some (node, aeReplyPacket node.id pl.leaderId node false) := by
  have h1 : ¬ (pl.term ≥ node.currentTerm) := by omega
  have h2 : pl.term < node.currentTerm := by omega
  simp [processAppendEntries, aeAdopt, h1, h2]

/-- Witness for C7 at a concrete stale payload. -/
theorem c7_stale_append_entries_witness :
    sampleFollower.currentTerm > (-3 : Int) ∧
    processAppendEntries sampleFollower
        { term := -3, leaderId := 0, prevLogIndex := 4, prevLogTerm := 2,
          entries := [{ term := 1, command := "z" }], leaderCommit := 7 } =
      some (sampleFollower, aeReplyPacket sampleFollower.id 0 sampleFollower false) :=
  ⟨by decide,
   c7_stale_append_entries sampleFollower
     { term := -3, leaderId := 0, prevLogIndex := 4, prevLogTerm := 2,
       entries := [{ term := 1, command := "z" }], leaderCommit := 7 }
     (by decide)⟩

/-! ## C3: the RequestVote handler -/

/-- C3: `processRequestVote` grants the vote iff the incoming term is at least
the post-adoption `currentTerm`, the post-adoption `votedFor` is unset or
already the candidate, and the candidate's log is at least as up to date; it
always produces exactly one `VoteResponse` addressed to the candidate carrying
the post-update `currentTerm` and the grant flag, and granting records the
vote and resets the election timer to `currentTimeoutDuration`. -/
theorem c3_request_vote_spec (node : RaftNode) (pl : RVPayload) :
    (processRequestVote node pl).2.toId = pl.candidateId ∧
    ∃ g : Bool,
      (processRequestVote node pl).2.payload =
        Payload.voteResponse (processRequestVote node pl).1.currentTerm g ∧
      (g = true ↔
        (pl.term ≥ (rvAdopt node pl.term).currentTerm ∧
         ((rvAdopt node pl.term).votedFor = none ∨
          (rvAdopt node pl.term).votedFor = some pl.candidateId) ∧
         (pl.lastLogTerm > lastLogTermOf node.log ∨
          (pl.lastLogTerm = lastLogTermOf node.log ∧
           pl.lastLogIndex ≥ lastLogIndexOf node.log)))) ∧
      (g = true →
        (processRequestVote node pl).1.votedFor = some pl.candidateId ∧
        (processRequestVote node pl).1.electionTimeout =
          node.currentTimeoutDuration) := by
  have hlog : (rvAdopt node pl.term).log = node.log := by
    unfold rvAdopt; split <;> rfl
  have hdur : (rvAdopt node pl.term).currentTimeoutDuration =
      node.currentTimeoutDuration := by
    unfold rvAdopt; split <;> rfl
  refine ⟨rfl, ?_⟩
  refine ⟨decide (pl.term ≥ (rvAdopt node pl.term).currentTerm) &&
    ((rvAdopt node pl.term).votedFor == none ||
     (rvAdopt node pl.term).votedFor == some pl.candidateId) &&
    logUpToDate (rvAdopt node pl.term).log pl.lastLogIndex pl.lastLogTerm,
    ?_, ?_, ?_⟩
  · rfl
  · simp [logUpToDate, hlog, ge_iff_le, and_assoc]
  · intro hg
    unfold processRequestVote
    simp only [hg, if_true]
    exact ⟨trivial, hdur⟩

/-! ## C2: heartbeat AppendEntries packet contents -/

/-- C2 counterexample: for peer 1 the leader `c2Leader` has
`nextIndex[1] = 0`, yet the heartbeat packet built for that peer carries
`prevLogIndex = 0` (not `nextIndex[1] - 1 = -1`) and an empty `entries`
array (not the leader's entries from position 0 onward, i.e. not
`[{term 1, "a"}]`): JS `(nextIndex || 1) - 1` treats `0` as absent. -/
theorem c2_counterexample :
    lookupA c2Leader.nextIndex 1 = some 0 ∧
    (heartbeatPacket c2Leader 1 1).payload =
      Payload.appendEntries 1 0 0 1 [] (-1) ∧
    ¬ ((0 : Int) = 0 - 1) ∧
    ¬ (([] : List LogEntry) = c2Leader.log.drop (0 : Int).toNat) := by
  refine ⟨rfl, rfl, by decide, by decide⟩

/-- C2 as amended: the heartbeat packet for a peer whose stored
`nextIndex` value is `n ≥ 0` carries
`prevLogIndex = (if n = 0 then 1 else n) - 1` (JS `(n || 1) - 1`, so a peer
with `nextIndex = 0` is probed as if it were `1`), `prevLogTerm` equal to the
term of the leader's entry at that index (`-1` when there is no such entry),
and exactly the leader's entries from position `if n = 0 then 1 else n`
onward — so for `nextIndex = 0` the peer is sent the entries from position 1
onward, never entry 0.  Every packet of the heartbeat broadcast is such a
packet for a live peer other than the leader. -/
theorem c2_heartbeat_amended (leader : RaftNode) (nodes : List RaftNode)
    (mult : ℚ) (peerId n : Int)
    (hn : lookupA leader.nextIndex peerId = some n) (h0 : 0 ≤ n) :
    (∀ p ∈ heartbeatBroadcast leader nodes mult, ∃ peer ∈ nodes,
        peer.id ≠ leader.id ∧ peer.state ≠ NodeState.CRASHED ∧
        p = heartbeatPacket leader peer.id mult) ∧
    (heartbeatPacket leader peerId mult).payload =
      Payload.appendEntries leader.currentTerm leader.id
        ((if n = 0 then 1 else n) - 1)
        (match termAt leader.log ((if n = 0 then 1 else n) - 1) with
         | some t => t
         | none => -1)
        (leader.log.drop (if n = 0 then 1 else n).toNat)
        leader.commitIndex := by
  constructor
  · intro p hp
    simp only [heartbeatBroadcast, List.mem_map, List.mem_filter] at hp
    obtain ⟨peer, ⟨hmem, hcond⟩, hpeq⟩ := hp
    refine ⟨peer, hmem, ?_, ?_, hpeq.symm⟩
    · intro h
      simp [h] at hcond
    · intro h
      simp [h] at hcond
  · have hslice : jsSlice leader.log ((jsOrOne (some n) - 1) + 1) =
        leader.log.drop (if n = 0 then 1 else n).toNat := by
      have h1 : jsOrOne (some n) - 1 + 1 = jsOrOne (some n) := by ring
      have h2 : jsOrOne (some n) = if n = 0 then 1 else n := by
        simp [jsOrOne]
      have h3 : 0 ≤ jsOrOne (some n) := by
        rw [h2]; split <;> omega
      rw [h1, jsSlice, if_pos h3, h2]
    simp only [heartbeatPacket, hn, hslice]
    have h2 : jsOrOne (some n) = if n = 0 then 1 else n := by simp [jsOrOne]
    rw [h2]

/-- Witness for C2's amended theorem at `c2Leader`, peer 1, `nextIndex = 0`. -/
theorem c2_heartbeat_amended_witness :
    lookupA c2Leader.nextIndex 1 = some 0 ∧ (0 : Int) ≤ 0 ∧
    (heartbeatPacket c2Leader 1 1).payload =
      Payload.appendEntries c2Leader.currentTerm c2Leader.id
        ((if (0 : Int) = 0 then 1 else 0) - 1)
        (match termAt c2Leader.log ((if (0 : Int) = 0 then 1 else 0) - 1) with
         | some t => t
         | none => -1)
        (c2Leader.log.drop (if (0 : Int) = 0 then (1 : Int) else 0).toNat)
        c2Leader.commitIndex :=
  ⟨rfl, by decide,
   (c2_heartbeat_amended c2Leader [] 1 1 0 rfl (by decide)).2⟩

/-! ## C9: packet speeds -/

/-- C9 counterexample: with the playback multiplier set to `2`, the
`VoteResponse` reply built by `processRequestVote` still has speed
`PACKET_SPEED = 3/2`, not `PACKET_SPEED * 2 = 3`: the handlers never apply the
multiplier to reply packets. -/
theorem c9_counterexample :
    (processRequestVote sampleFollower
        { term := 1, candidateId := 2, lastLogIndex := -1, lastLogTerm := -1
        }).2.speed = PACKET_SPEED ∧
    PACKET_SPEED ≠ PACKET_SPEED * 2 := by
  refine ⟨rfl, ?_⟩
  rw [PACKET_SPEED]
  norm_num

/-- C9 as amended: the `RequestVote` and `AppendEntries` packets built by the
scheduler's broadcasts have speed `PACKET_SPEED` times the playback
multiplier, while the `VoteResponse` and `AppendResponse` reply packets built
by the handlers always have speed `PACKET_SPEED`, with no multiplier. -/
theorem c9_speed_amended :
    (∀ (node : RaftNode) (pl : RVPayload),
      (processRequestVote node pl).2.speed = PACKET_SPEED) ∧
    (∀ (node : RaftNode) (pl : AEPayload) (n2 : RaftNode) (pkt : Packet),
      processAppendEntries node pl = some (n2, pkt) →
      pkt.speed = PACKET_SPEED) ∧
    (∀ (sender : RaftNode) (pl : Payload) (nodes : List RaftNode) (mult : ℚ),
      ∀ p ∈ broadcast sender pl nodes mult, p.speed = PACKET_SPEED * mult) ∧
    (∀ (leader : RaftNode) (nodes : List RaftNode) (mult : ℚ),
      ∀ p ∈ heartbeatBroadcast leader nodes mult,
      p.speed = PACKET_SPEED * mult) := by
  refine ⟨fun node pl => rfl, ?_, ?_, ?_⟩
  · intro node pl n2 pkt h
    unfold processAppendEntries at h
    split at h
    · injection h with h'
      injection h' with ha hb
      rw [← hb]; rfl
    · split at h
      · injection h with h'
        have h2 : pkt = (aeSuccess node.id pl (aeAdopt node pl)).2 := by
          rw [h']
        rw [h2]; rfl
      · split at h
        · exact absurd h (by simp)
        · injection h with h'
          injection h' with ha hb
          rw [← hb]; rfl
  · intro sender pl nodes mult p hp
    simp only [broadcast, List.mem_map] at hp
    obtain ⟨t, _, ht⟩ := hp
    rw [← ht]
  · intro leader nodes mult p hp
    simp only [heartbeatBroadcast, List.mem_map] at hp
    obtain ⟨t, _, ht⟩ := hp
    rw [← ht]; rfl

/-- Witness for the amended C9 at concrete packets from each creation site. -/
theorem c9_speed_amended_witness :
    (aeReplyPacket sampleFollower.id 0 sampleFollower false).speed =
      PACKET_SPEED ∧
    ∀ p ∈ broadcast c2Leader (Payload.voteResponse 0 true) [sampleFollower] 2,
      p.speed = PACKET_SPEED * 2 :=
  ⟨c9_speed_amended.2.1 sampleFollower
      { term := -3, leaderId := 0, prevLogIndex := 0, prevLogTerm := 0,
        entries := [], leaderCommit := -1 }
      sampleFollower (aeReplyPacket sampleFollower.id 0 sampleFollower false)
      rfl,
   c9_speed_amended.2.2.1 c2Leader (Payload.voteResponse 0 true)
      [sampleFollower] 2⟩

/-! ## C10: the crash toggle -/

/-- Toggling an id that only occurs past a prefix of other ids walks over the
prefix unchanged. -/
theorem toggleNodeState_append (pre rest : List RaftNode) (i draw : Int)
    (hpre : ∀ m ∈ pre, m.id ≠ i) :
    toggleNodeState (pre ++ rest) i draw = pre ++ toggleNodeState rest i draw := by
  induction pre with
  | nil => rfl
  | cons hd tl ih =>
      have hhd : hd.id ≠ i := hpre hd (by simp)
      simp only [List.cons_append, toggleNodeState, if_neg hhd]
      exact congrArg (List.cons hd) (ih (fun m hm => hpre m (by simp [hm])))

/-- Toggling an id that occurs nowhere is a no-op. -/
theorem toggleNodeState_absent (ns : List RaftNode) (i draw : Int)
    (h : ∀ m ∈ ns, m.id ≠ i) : toggleNodeState ns i draw = ns := by
  induction ns with
  | nil => rfl
  | cons hd tl ih =>
      have hhd : hd.id ≠ i := h hd (by simp)
      simp only [toggleNodeState, if_neg hhd]
      rw [ih (fun m hm => h m (by simp [hm]))]

/-- C10: the crash toggle changes only the targeted node's role and, on
revival, its election timeout.  Crashing a live node only sets its role to
`CRASHED`; crashing and then reviving it yields the node back as a
`FOLLOWER` with the fresh timeout draw and every other field — `currentTerm`,
`votedFor`, `log`, `commitIndex`, `nextIndex`, `matchIndex`,
`heartbeatTimer`, and in particular `currentTimeoutDuration`, which is not
redrawn — exactly as before the crash; nodes other than the first match are
untouched, and toggling an id absent from the cluster changes nothing. -/
theorem c10_toggle_frame (pre post : List RaftNode) (node : RaftNode)
    (i d d' : Int) (hpre : ∀ m ∈ pre, m.id ≠ i) (hid : node.id = i)
    (hlive : node.state ≠ .CRASHED) :
    toggleNodeState (pre ++ node :: post) i d =
      pre ++ { node with state := .CRASHED } :: post ∧
    toggleNodeState (toggleNodeState (pre ++ node :: post) i d) i d' =
      pre ++ { node with state := .FOLLOWER, electionTimeout := d' } :: post ∧
    (∀ ns : List RaftNode, (∀ m ∈ ns, m.id ≠ i) →
      toggleNodeState ns i d' = ns) := by
  have hcrash : toggleNodeState (pre ++ node :: post) i d =
      pre ++ { node with state := .CRASHED } :: post := by
    rw [toggleNodeState_append pre (node :: post) i d hpre]
    simp only [toggleNodeState, if_pos hid, toggleOne, if_neg hlive]
  refine ⟨hcrash, ?_, fun ns h => toggleNodeState_absent ns i d' h⟩
  rw [hcrash,
    toggleNodeState_append pre ({ node with state := .CRASHED } :: post) i d' hpre]
  simp only [toggleNodeState, if_pos hid, toggleOne]
  simp

/-- Witness for C10 on a two-node cluster, crashing and reviving node 1. -/
theorem c10_toggle_frame_witness :
    toggleNodeState [c2Leader, sampleFollower] 1 7 =
      [c2Leader, { sampleFollower with state := .CRASHED }] ∧
    toggleNodeState (toggleNodeState [c2Leader, sampleFollower] 1 7) 1 9 =
      [c2Leader,
       { sampleFollower with state := .FOLLOWER, electionTimeout := 9 }] ∧
    (∀ ns : List RaftNode, (∀ m ∈ ns, m.id ≠ 1) →
      toggleNodeState ns 1 9 = ns) := by
  have h := c10_toggle_frame [c2Leader] [] sampleFollower 1 7 9
    (by intro m hm; simp only [List.mem_singleton] at hm; rw [hm]; decide)
    (by decide) (by decide)
  simpa using h

/-! ## C4: AppendEntries success and conflict resolution -/

/-- Once the insertion position is past the end of the log, the loop appends
every remaining entry. -/
theorem appendLoop_of_le (es : List LogEntry) :
    ∀ (l : List LogEntry) (i : Nat), l.length ≤ i → appendLoop l i es = l ++ es := by
  induction es with
  | nil => intro l i _; simp [appendLoop]
  | cons e rest ih =>
      intro l i h
      have hnone : l[i]? = none := List.getElem?_eq_none h
      rw [appendLoop, hnone]
      rw [ih (l ++ [e]) (i + 1) (by simp; omega)]
      simp

/-- Same for the claim-worded merge. -/
theorem specMerge_of_le (es : List LogEntry) :
    ∀ (l : List LogEntry) (i : Nat), l.length ≤ i → specMerge l i es = l ++ es := by
  induction es with
  | nil => intro l i _; simp [specMerge]
  | cons e rest ih =>
      intro l i h
      have hnone : l[i]? = none := List.getElem?_eq_none h
      rw [specMerge, hnone]
      rw [ih (l ++ [e]) (i + 1) (by simp; omega)]
      simp

/-- The code's insertion loop computes exactly the merge described by the
spec: unchanged prefix up to the first conflict or end-of-log, then the
remaining supplied entries (truncating on a term conflict). -/
theorem appendLoop_eq_specMerge (es : List LogEntry) :
    ∀ (l : List LogEntry) (i : Nat), appendLoop l i es = specMerge l i es := by
  induction es with
  | nil => intro l i; rfl
  | cons e rest ih =>
      intro l i
      rw [appendLoop, specMerge]
      cases hget : l[i]? with
      | none => exact ih (l ++ [e]) (i + 1)
      | some cur =>
          dsimp only
          by_cases hterm : cur.term = e.term
          · rw [if_pos hterm, if_pos hterm]
            exact ih l (i + 1)
          · rw [if_neg hterm, if_neg hterm]
            have hi : i < l.length := by
              by_contra hc
              push_neg at hc
              rw [List.getElem?_eq_none hc] at hget
              cases hget
            rw [appendLoop_of_le rest (l.take i ++ [e]) (i + 1)
              (by simp [min_eq_left (le_of_lt hi)])]
            simp

/-- C4: for a non-stale AppendEntries payload with a well-formed
`prevLogIndex`, the handler replies success exactly when `prevLogIndex = -1`
or the receiver's log holds an entry of term `prevLogTerm` at `prevLogIndex`,
and on success the resulting log is the spec-described merge of the supplied
entries into the receiver's log at `prevLogIndex + 1`: entries are appended
where the log ends, skipped where the terms already agree, and a conflicting
term truncates the log there and appends the new entry with all following
supplied entries. -/
theorem c4_append_entries_spec (node : RaftNode) (pl : AEPayload)
    (hterm : pl.term ≥ node.currentTerm) (hprev : -1 ≤ pl.prevLogIndex) :
    ∃ n2 succ,
      processAppendEntries node pl =
        some (n2, aeReplyPacket node.id pl.leaderId n2 succ) ∧
      (succ = true ↔
        (pl.prevLogIndex = -1 ∨
         termAt node.log pl.prevLogIndex = some pl.prevLogTerm)) ∧
      (succ = true →
        n2.log = specMerge node.log (pl.prevLogIndex + 1).toNat pl.entries) := by
  have hadopt : aeAdopt node pl =
      { node with currentTerm := pl.term, state := .FOLLOWER, votedFor := none,
                  electionTimeout := node.currentTimeoutDuration } := by
    unfold aeAdopt; rw [if_pos hterm]
  have hlog : (aeAdopt node pl).log = node.log := by rw [hadopt]
  have hnotlt : ¬ (pl.term < (aeAdopt node pl).currentTerm) := by
    rw [hadopt]; simp
  unfold processAppendEntries
  rw [if_neg hnotlt]
  by_cases hok : aeLogOk (aeAdopt node pl) pl
  · rw [if_pos hok]
    refine ⟨(aeSuccess node.id pl (aeAdopt node pl)).1, true, rfl, ?_, ?_⟩
    · simp only [true_iff]
      rcases hok with h | ⟨_, h⟩
      · exact Or.inl h
      · right; rw [hlog] at h; exact h
    · intro _
      show (aeSuccess node.id pl (aeAdopt node pl)).1.log = _
      simp only [aeSuccess]
      split <;> simp [hlog, appendLoop_eq_specMerge]
  · rw [if_neg hok, if_neg (show ¬ (pl.prevLogIndex ≤ -2) by omega)]
    refine ⟨aeAdopt node pl, false, rfl, ?_, by simp⟩
    simp only [Bool.false_eq_true, false_iff]
    rintro (h1 | h2)
    · exact hok (Or.inl h1)
    · have h0 : 0 ≤ pl.prevLogIndex := by
        by_contra hneg
        exact hok (Or.inl (by omega))
      exact hok (Or.inr ⟨h0, by rw [hlog]; exact h2⟩)

/-- A follower with two entries of term 1, used to witness C4. -/
def c4Node : RaftNode :=
  { id := 1, state := .FOLLOWER, currentTerm := 1, votedFor := none,
    log := [{ term := 1, command := "a" }, { term := 1, command := "b" }],
    commitIndex := -1, electionTimeout := 150, currentTimeoutDuration := 150,
    nextIndex := [], matchIndex := [], heartbeatTimer := 0 }

/-- A conflicting AppendEntries payload of term 2 aimed at `c4Node`. -/
def c4Payload : AEPayload :=
  { term := 2, leaderId := 0, prevLogIndex := 0, prevLogTerm := 1,
    entries := [{ term := 2, command := "x" }], leaderCommit := 1 }

/-- Witness for C4 at `c4Node` and `c4Payload`. -/
theorem c4_append_entries_spec_witness :
    c4Payload.term ≥ c4Node.currentTerm ∧ (-1 : Int) ≤ c4Payload.prevLogIndex ∧
    ∃ n2 succ,
      processAppendEntries c4Node c4Payload =
        some (n2, aeReplyPacket c4Node.id c4Payload.leaderId n2 succ) ∧
      (succ = true ↔
        (c4Payload.prevLogIndex = -1 ∨
         termAt c4Node.log c4Payload.prevLogIndex =
           some c4Payload.prevLogTerm)) ∧
      (succ = true →
        n2.log = specMerge c4Node.log
          (c4Payload.prevLogIndex + 1).toNat c4Payload.entries) :=
  ⟨by decide, by decide,
   c4_append_entries_spec c4Node c4Payload (by decide) (by decide)⟩

/-! ## C5: leader commit-index recomputation -/

/-- Lemma: `entryTermEq` is the truthy-guarded form of "the log entry at that index
exists and carries term `t`". -/
theorem entryTermEq_iff (log : List LogEntry) (i t : Int) :
    entryTermEq log i t = true ↔ termAt log i = some t := by
  unfold entryTermEq
  cases h : termAt log i <;> simp

/-- A term-3 leader with three own-term entries whose `matchIndex` record
still holds `-1` for three peers (and the self entry `0` written by the
election-victory initialization). -/
def c5Leader : RaftNode :=
  { id := 0, state := .LEADER, currentTerm := 3, votedFor := some 0,
    log := [{ term := 3, command := "a" }, { term := 3, command := "b" },
            { term := 3, command := "c" }],
    commitIndex := -1, electionTimeout := 0, currentTimeoutDuration := 200,
    nextIndex := [(0, 3), (1, 0), (2, 0), (3, 0), (4, 0)],
    matchIndex := [(0, 0), (1, 0), (2, -1), (3, -1), (4, -1)],
    heartbeatTimer := 10 }

/-- C5 counterexample: on a successful same-term AppendResponse from peer 1
reporting `matchIndex = 2`, the code advances `c5Leader.commitIndex` to `0`,
yet the claim's candidate — rank 2 of the descending sort of the leader's own
last log index together with the *peers'* match indexes — is `-1`, which does
not exceed the current commitIndex `-1`, so under the claim the commit index
would not move: the code's sorted array additionally contains the leader's
own `matchIndex[0] = 0` self entry. -/
theorem c5_counterexample :
    c5Leader.state = NodeState.LEADER ∧
    c5Leader.currentTerm = 3 ∧
    c5Leader.commitIndex = -1 ∧
    (processAppendResponse c5Leader 1
        { term := 3, success := true, matchIndex := 2 }).commitIndex = 0 ∧
    specCandidateCommit { c5Leader with
        matchIndex := setA c5Leader.matchIndex 1 2,
        nextIndex := setA c5Leader.nextIndex 1 3 } = some (-1) ∧
    ¬ ((-1 : Int) > c5Leader.commitIndex) := by
  refine ⟨rfl, rfl, rfl, ?_, ?_, by decide⟩ <;> decide

/-- Written from the amended claim wording of C5: after storing the reported
`matchIndex` for the sender and `nextIndex = matchIndex + 1`, the candidate
commit index is the value at 0-indexed rank `⌊N/2⌋ = 2` of the descending
sort of the multiset holding the leader's own last log index together with
`matchIndex[p]` for every node `p` of the cluster *including the leader's own
self entry*; `commitIndex` advances to it exactly when it exceeds the current
`commitIndex` and the leader's log entry at that index carries the leader's
own current term. -/
def specAppendSuccessStep (node : RaftNode) (senderId m : Int) : RaftNode :=
  let n1 := { node with
    matchIndex := setA node.matchIndex senderId m,
    nextIndex := setA node.nextIndex senderId (m + 1) }
  match codeCandidateCommit n1 with
  | some mN =>
      if mN > node.commitIndex ∧ termAt node.log mN = some node.currentTerm then
        { n1 with commitIndex := mN }
      else n1
  | none => n1

/-- C5 as amended: a leader processing a successful AppendResponse of its own
term performs exactly the spec-worded step with the leader's own `matchIndex`
entry included in the sorted multiset. -/
theorem c5_commit_amended (node : RaftNode) (senderId : Int) (pl : ARPayload)
    (hL : node.state = NodeState.LEADER) (ht : pl.term = node.currentTerm)
    (hs : pl.success = true) :
    processAppendResponse node senderId pl =
      specAppendSuccessStep node senderId pl.matchIndex := by
  have hngt : ¬ (pl.term > node.currentTerm) := by omega
  unfold processAppendResponse specAppendSuccessStep
  rw [if_neg hngt, if_pos ⟨hL, ht⟩, if_pos hs]
  dsimp only
  cases hcc : codeCandidateCommit { node with
      matchIndex := setA node.matchIndex senderId pl.matchIndex,
      nextIndex := setA node.nextIndex senderId (pl.matchIndex + 1) } with
  | none => rfl
  | some mN =>
      dsimp only
      have hiff : entryTermEq node.log mN node.currentTerm = true ↔
          termAt node.log mN = some node.currentTerm :=
        entryTermEq_iff node.log mN node.currentTerm
      split_ifs with h1 h2 h3 <;> first | rfl | (exfalso; tauto)

/-- Witness for the amended C5 at `c5Leader`. -/
theorem c5_commit_amended_witness :
    c5Leader.state = NodeState.LEADER ∧
    (3 : Int) = c5Leader.currentTerm ∧
    processAppendResponse c5Leader 1 { term := 3, success := true, matchIndex := 2 } =
      specAppendSuccessStep c5Leader 1 2 :=
  ⟨rfl, rfl,
   c5_commit_amended c5Leader 1 { term := 3, success := true, matchIndex := 2 }
     rfl rfl rfl⟩

/-! ## C8: idempotence of AppendEntries redelivery -/

/-- The insertion loop never changes the log strictly below the insertion
position. -/
theorem appendLoop_getElem_lt (es : List LogEntry) :
    ∀ (l : List LogEntry) (i j : Nat), i ≤ l.length → j < i →
      (appendLoop l i es)[j]? = l[j]? := by
  induction es with
  | nil => intro l i j _ _; rfl
  | cons e rest ih =>
      intro l i j hi hj
      rw [appendLoop]
      cases hget : l[i]? with
      | none =>
          have hlen : l.length ≤ i := List.getElem?_eq_none_iff.mp hget
          dsimp only
          rw [ih (l ++ [e]) (i + 1) j (by simp; omega) (by omega)]
          exact List.getElem?_append_left (by omega)
      | some cur =>
          have hil : i < l.length := by
            by_contra hc
            push_neg at hc
            rw [List.getElem?_eq_none hc] at hget
            cases hget
          dsimp only
          by_cases ht : cur.term = e.term
          · rw [if_pos ht]
            exact ih l (i + 1) j (by omega) (by omega)
          · rw [if_neg ht]
            rw [ih (l.take i ++ [e]) (i + 1) j
              (by simp [min_eq_left hil.le]) (by omega)]
            rw [List.getElem?_append_left (by simp [min_eq_left hil.le]; omega)]
            rw [List.getElem?_take, if_pos hj]

/-- After the loop runs, the log agrees in term with the supplied entries at
every inserted position. -/
theorem appendLoop_getElem_terms (es : List LogEntry) :
    ∀ (l : List LogEntry) (i : Nat), i ≤ l.length →
      ∀ k, k < es.length →
        ((appendLoop l i es)[i + k]?).map LogEntry.term =
          (es[k]?).map LogEntry.term := by
  induction es with
  | nil => intro l i _ k hk; simp at hk
  | cons e rest ih =>
      intro l i hi k hk
      rw [appendLoop]
      cases hget : l[i]? with
      | none =>
          have hieq : i = l.length :=
            le_antisymm hi (List.getElem?_eq_none_iff.mp hget)
          dsimp only
          cases k with
          | zero =>
              simp only [Nat.add_zero, List.getElem?_cons_zero]
              rw [appendLoop_getElem_lt rest (l ++ [e]) (i + 1) i
                  (by simp; omega) (by omega)]
              rw [hieq, List.getElem?_concat_length]
          | succ k' =>
              have h' := ih (l ++ [e]) (i + 1) (by simp; omega) k'
                (by simpa using hk)
              rw [show i + (k' + 1) = (i + 1) + k' by omega]
              simpa [List.getElem?_cons_succ] using h'
      | some cur =>
          have hil : i < l.length := by
            by_contra hc
            push_neg at hc
            rw [List.getElem?_eq_none hc] at hget
            cases hget
          dsimp only
          by_cases ht : cur.term = e.term
          · rw [if_pos ht]
            cases k with
            | zero =>
                simp only [Nat.add_zero, List.getElem?_cons_zero]
                rw [appendLoop_getElem_lt rest l (i + 1) i (by omega) (by omega),
                  hget]
                simp [ht]
            | succ k' =>
                have h' := ih l (i + 1) (by omega) k' (by simpa using hk)
                rw [show i + (k' + 1) = (i + 1) + k' by omega]
                simpa [List.getElem?_cons_succ] using h'
          · rw [if_neg ht]
            have hlen' : (l.take i ++ [e]).length = i + 1 := by
              simp [min_eq_left hil.le]
            cases k with
            | zero =>
                simp only [Nat.add_zero, List.getElem?_cons_zero]
                rw [appendLoop_getElem_lt rest (l.take i ++ [e]) (i + 1) i
                    (by omega) (by omega)]
                have hcat : (l.take i ++ [e])[i]? = some e := by
                  have h2 : (l.take i ++ [e])[(l.take i).length]? = some e :=
                    List.getElem?_concat_length (l.take i) e
                  rwa [List.length_take, min_eq_left hil.le] at h2
                rw [hcat]
            | succ k' =>
                have h' := ih (l.take i ++ [e]) (i + 1) (by omega) k'
                  (by simpa using hk)
                rw [show i + (k' + 1) = (i + 1) + k' by omega]
                simpa [List.getElem?_cons_succ] using h'

/-- When the log already agrees in term with every supplied entry at its
position, the loop leaves the log untouched. -/
theorem appendLoop_self (es : List LogEntry) :
    ∀ (l : List LogEntry) (i : Nat),
      (∀ k, k < es.length →
        (l[i + k]?).map LogEntry.term = (es[k]?).map LogEntry.term) →
      appendLoop l i es = l := by
  induction es with
  | nil => intro l i _; rfl
  | cons e rest ih =>
      intro l i hmatch
      have h0 := hmatch 0 (by simp)
      rw [Nat.add_zero] at h0
      rw [appendLoop]
      cases hget : l[i]? with
      | none => rw [hget] at h0; simp at h0
      | some cur =>
          rw [hget] at h0
          have ht : cur.term = e.term := by simpa using h0
          dsimp only
          rw [if_pos ht]
          refine ih l (i + 1) (fun k hk => ?_)
          have h' := hmatch (k + 1) (by simp; omega)
          rw [show i + (k + 1) = (i + 1) + k by omega] at h'
          simpa using h'

/-- Running the insertion loop a second time with the same entries at the
same position is a no-op. -/
theorem appendLoop_idem (es l : List LogEntry) (i : Nat) (hi : i ≤ l.length) :
    appendLoop (appendLoop l i es) i es = appendLoop l i es :=
  appendLoop_self es (appendLoop l i es) i
    (fun k hk => appendLoop_getElem_terms es l i hi k hk)

/-- C8: redelivering an identical AppendEntries payload to the node produced
by its first delivery leaves the receiver's log and commitIndex unchanged
(the second delivery succeeds or fails exactly as before; only volatile
fields such as votedFor and the election timer may be touched again). -/
theorem c8_redelivery_idempotent (node : RaftNode) (pl : AEPayload)
    (n1 : RaftNode) (pkt : Packet)
    (h : processAppendEntries node pl = some (n1, pkt)) :
    ∃ n2 pkt2, processAppendEntries n1 pl = some (n2, pkt2) ∧
      n2.log = n1.log ∧ n2.commitIndex = n1.commitIndex := by
  by_cases hge : pl.term ≥ node.currentTerm
  · -- the incoming term was adopted
    have hA : aeAdopt node pl =
        { node with currentTerm := pl.term, state := .FOLLOWER,
                    votedFor := none,
                    electionTimeout := node.currentTimeoutDuration } := by
      unfold aeAdopt; rw [if_pos hge]
    have hns : ¬ (pl.term < (aeAdopt node pl).currentTerm) := by
      rw [hA]; simp
    by_cases hok : aeLogOk (aeAdopt node pl) pl
    · -- first delivery succeeded
      have hrun : processAppendEntries node pl =
          some (aeSuccess node.id pl (aeAdopt node pl)) := by
        unfold processAppendEntries; rw [if_neg hns, if_pos hok]
      rw [hrun] at h
      have hpair := Option.some.inj h
      have hn1 : (aeSuccess node.id pl (aeAdopt node pl)).1 = n1 :=
        congrArg Prod.fst hpair
      have hidx : (pl.prevLogIndex + 1).toNat ≤ (aeAdopt node pl).log.length := by
        rcases hok with hm1 | ⟨h0, hterm⟩
        · rw [hm1]; simp
        · rw [termAt, if_pos h0] at hterm
          cases hx : (aeAdopt node pl).log[pl.prevLogIndex.toNat]? with
          | none => rw [hx] at hterm; simp at hterm
          | some _ =>
              have hplt : pl.prevLogIndex.toNat <
                  (aeAdopt node pl).log.length := by
                by_contra hc
                push_neg at hc
                rw [List.getElem?_eq_none hc] at hx
                cases hx
              omega
      have hn1log : n1.log =
          appendLoop (aeAdopt node pl).log (pl.prevLogIndex + 1).toNat
            pl.entries := by
        rw [← hn1]; unfold aeSuccess; dsimp only; split <;> rfl
      have hn1term : n1.currentTerm = pl.term := by
        rw [← hn1]; unfold aeSuccess; dsimp only; split <;> rw [hA]
      have hA2 : aeAdopt n1 pl =
          { n1 with currentTerm := pl.term, state := .FOLLOWER,
                    votedFor := none,
                    electionTimeout := n1.currentTimeoutDuration } := by
        unfold aeAdopt; rw [if_pos (by omega)]
      have hns2 : ¬ (pl.term < (aeAdopt n1 pl).currentTerm) := by
        rw [hA2]; simp
      have hok2 : aeLogOk (aeAdopt n1 pl) pl := by
        rcases hok with hm1 | ⟨h0, hterm⟩
        · exact Or.inl hm1
        · refine Or.inr ⟨h0, ?_⟩
          rw [hA2]
          show termAt n1.log pl.prevLogIndex = some pl.prevLogTerm
          rw [hn1log, termAt, if_pos h0,
            appendLoop_getElem_lt pl.entries (aeAdopt node pl).log
              ((pl.prevLogIndex + 1).toNat) pl.prevLogIndex.toNat hidx
              (by omega)]
          rw [termAt, if_pos h0] at hterm
          exact hterm
      have hrun2 : processAppendEntries n1 pl =
          some (aeSuccess n1.id pl (aeAdopt n1 pl)) := by
        unfold processAppendEntries; rw [if_neg hns2, if_pos hok2]
      refine ⟨(aeSuccess n1.id pl (aeAdopt n1 pl)).1,
        (aeSuccess n1.id pl (aeAdopt n1 pl)).2, by rw [hrun2], ?_, ?_⟩
      · rw [hA2]
        unfold aeSuccess
        dsimp only
        split <;>
          (dsimp only
           rw [hn1log]
           exact appendLoop_idem pl.entries (aeAdopt node pl).log
             ((pl.prevLogIndex + 1).toNat) hidx)
      · have hci2 : (aeSuccess n1.id pl (aeAdopt n1 pl)).1.commitIndex =
            (if pl.leaderCommit > n1.commitIndex then
              min pl.leaderCommit
                (((appendLoop n1.log (pl.prevLogIndex + 1).toNat
                    pl.entries).length : Int) - 1)
             else n1.commitIndex) := by
          rw [hA2]
          unfold aeSuccess
          dsimp only
          by_cases hlc : pl.leaderCommit > n1.commitIndex
          · rw [if_pos hlc, if_pos hlc]
          · rw [if_neg hlc, if_neg hlc]
        have hci1 : n1.commitIndex =
            (if pl.leaderCommit > node.commitIndex then
              min pl.leaderCommit
                (((appendLoop (aeAdopt node pl).log
                    (pl.prevLogIndex + 1).toNat pl.entries).length : Int) - 1)
             else node.commitIndex) := by
          conv_lhs => rw [← hn1]
          unfold aeSuccess
          dsimp only
          by_cases hlc : pl.leaderCommit > (aeAdopt node pl).commitIndex
          · rw [if_pos hlc, if_pos (by rw [hA] at hlc; exact hlc)]
          · rw [if_neg hlc, if_neg (by rw [hA] at hlc; exact hlc)]
            rw [hA]
        rw [hci2, hn1log,
          appendLoop_idem pl.entries (aeAdopt node pl).log
            ((pl.prevLogIndex + 1).toNat) hidx,
          hci1]
        split_ifs <;> omega
    · -- first delivery failed the consistency check
      by_cases hple : pl.prevLogIndex ≤ -2
      · have hnone : processAppendEntries node pl = none := by
          unfold processAppendEntries; rw [if_neg hns, if_neg hok, if_pos hple]
        rw [hnone] at h
        cases h
      · have hrun : processAppendEntries node pl =
            some (aeAdopt node pl,
              aeReplyPacket node.id pl.leaderId (aeAdopt node pl) false) := by
          unfold processAppendEntries
          rw [if_neg hns, if_neg hok, if_neg hple]
        rw [hrun] at h
        injection Option.some.inj h with hn1 hpkt
        have hn1term : n1.currentTerm = pl.term := by rw [← hn1, hA]
        have hn1log : (aeAdopt node pl).log = n1.log := congrArg RaftNode.log hn1
        have hA2 : aeAdopt n1 pl =
            { n1 with currentTerm := pl.term, state := .FOLLOWER,
                      votedFor := none,
                      electionTimeout := n1.currentTimeoutDuration } := by
          unfold aeAdopt; rw [if_pos (by omega)]
        have hns2 : ¬ (pl.term < (aeAdopt n1 pl).currentTerm) := by
          rw [hA2]; simp
        have hok2 : ¬ aeLogOk (aeAdopt n1 pl) pl := by
          intro hcon
          apply hok
          rcases hcon with hm1 | ⟨h0, hterm⟩
          · exact Or.inl hm1
          · refine Or.inr ⟨h0, ?_⟩
            rw [hA2] at hterm
            rw [show (aeAdopt node pl).log = n1.log from hn1log]
            exact hterm
        have hrun2 : processAppendEntries n1 pl =
            some (aeAdopt n1 pl,
              aeReplyPacket n1.id pl.leaderId (aeAdopt n1 pl) false) := by
          unfold processAppendEntries
          rw [if_neg hns2, if_neg hok2, if_neg hple]
        refine ⟨aeAdopt n1 pl, _, hrun2, ?_, ?_⟩
        · rw [hA2]
        · rw [hA2]
  · -- strictly stale: the first delivery changed nothing at all
    have hA : aeAdopt node pl = node := by unfold aeAdopt; rw [if_neg hge]
    have hlt : pl.term < node.currentTerm := by omega
    have hrun : processAppendEntries node pl =
        some (node, aeReplyPacket node.id pl.leaderId node false) := by
      unfold processAppendEntries
      rw [hA, if_pos hlt]
    rw [hrun] at h
    injection Option.some.inj h with hn1 hpkt
    refine ⟨n1, pkt, ?_, rfl, rfl⟩
    rw [← hn1, hrun, hpkt]

/-- Witness for C8: redelivering `c4Payload` to the node obtained from its
first delivery to `c4Node`. -/
theorem c8_redelivery_idempotent_witness :
    ∃ n1 pkt, processAppendEntries c4Node c4Payload = some (n1, pkt) ∧
    ∃ n2 pkt2, processAppendEntries n1 c4Payload = some (n2, pkt2) ∧
      n2.log = n1.log ∧ n2.commitIndex = n1.commitIndex := by
  refine ⟨(aeSuccess c4Node.id c4Payload (aeAdopt c4Node c4Payload)).1,
    (aeSuccess c4Node.id c4Payload (aeAdopt c4Node c4Payload)).2, rfl, ?_⟩
  exact c8_redelivery_idempotent c4Node c4Payload _ _ rfl
